import Mathlib

/-!
Verification of the core of the instagram-reels-recommender repository.

The development shallowly embeds the two algorithmic parts of the
repository:

* the stateful recommendation backend
  (`src/modelling/backend/main.py`): user-profile store, user creation,
  interaction recording, and the 2-regular + 1-priority recommendation
  pattern;
* the nearest-centroid fallback classifier
  (`src/internal_logics/fallback.py`).

Python dictionaries are embedded as association lists that preserve
insertion order (Python dicts iterate in insertion order); dictionary
assignment updates the value in place when the key is present and appends
the new binding otherwise.  The `random.shuffle` calls of the
recommendation path are embedded by passing the shuffled pools as explicit
list parameters, constrained to be permutations of the pools the code
builds; theorems quantify over all such permutations.  Persistence
(`save_user_profiles`) is embedded by counting writes: each operation
reports how many times it persisted the collection.
-/

namespace Reels

/-- Lookup in an association list: returns the value bound to the first
occurrence of the key, like a Python dict read (keys are unique in any
list built by dict operations). -/
def alookup {α β : Type} [DecidableEq α] : List (α × β) → α → Option β
  | [], _ => none
  | (k, v) :: rest, key => if k = key then some v else alookup rest key

/-- Dictionary assignment `d[key] = val`: replace the binding in place if
the key is present, otherwise append the new binding at the end (Python
dicts keep insertion order and keep a reassigned key at its position). -/
def aupdate {α β : Type} [DecidableEq α] : List (α × β) → α → β → List (α × β)
  | [], key, val => [(key, val)]
  | (k, v) :: rest, key, val =>
    if k = key then (key, val) :: rest else (k, v) :: aupdate rest key val

theorem alookup_aupdate_self {α β : Type} [DecidableEq α]
    (m : List (α × β)) (k : α) (v : β) : alookup (aupdate m k v) k = some v := by
  induction m with
  | nil => simp [aupdate, alookup]
  | cons hd tl ih =>
    obtain ⟨k', v'⟩ := hd
    by_cases h : k' = k
    · subst h; simp [aupdate, alookup]
    · simp [aupdate, alookup, h, ih]

theorem alookup_aupdate_ne {α β : Type} [DecidableEq α]
    (m : List (α × β)) (k k' : α) (v : β) (h : k' ≠ k) :
    alookup (aupdate m k v) k' = alookup m k' := by
  induction m with
  | nil => simp [aupdate, alookup, Ne.symm h]
  | cons hd tl ih =>
    obtain ⟨k₀, v₀⟩ := hd
    by_cases h0 : k₀ = k
    · subst h0
      simp [aupdate, alookup, Ne.symm h]
    · by_cases h1 : k₀ = k'
      · subst h1; simp [aupdate, alookup, h0]
      · simp [aupdate, alookup, h0, h1, ih]

theorem alookup_of_none_aupdate {α β : Type} [DecidableEq α]
    (m : List (α × β)) (k : α) (v : β) (h : alookup m k = none) :
    aupdate m k v = m ++ [(k, v)] := by
  induction m with
  | nil => simp [aupdate]
  | cons hd tl ih =>
    obtain ⟨k₀, v₀⟩ := hd
    by_cases h0 : k₀ = k
    · subst h0; simp [alookup] at h
    · simp [alookup, h0] at h
      simp [aupdate, h0, ih h]

theorem mem_of_mem_aupdate {α β : Type} [DecidableEq α]
    {m : List (α × β)} {k : α} {v : β} {e : α × β} (h : e ∈ aupdate m k v) :
    e ∈ m ∨ e = (k, v) := by
  induction m with
  | nil => simp [aupdate] at h; simp [h]
  | cons hd tl ih =>
    obtain ⟨k₀, v₀⟩ := hd
    by_cases h0 : k₀ = k
    · subst h0
      simp [aupdate] at h
      rcases h with h | h
      · right; simp [h]
      · left; simp [h]
    · simp [aupdate, h0] at h
      rcases h with h | h
      · left; simp [h]
      · rcases ih h with h' | h'
        · left; simp [h']
        · right; exact h'

theorem mem_of_alookup_eq_some {α β : Type} [DecidableEq α]
    {m : List (α × β)} {k : α} {v : β} (h : alookup m k = some v) : (k, v) ∈ m := by
  induction m with
  | nil => simp [alookup] at h
  | cons hd tl ih =>
    obtain ⟨k₀, v₀⟩ := hd
    by_cases h0 : k₀ = k
    · subst h0
      simp [alookup] at h
      simp [h]
    · simp [alookup, h0] at h
      simp [ih h]

theorem alookup_append_right {α β : Type} [DecidableEq α]
    (m : List (α × β)) (k : α) (v : β) (h : alookup m k = none) :
    alookup (m ++ [(k, v)]) k = some v := by
  induction m with
  | nil => simp [alookup]
  | cons hd tl ih =>
    obtain ⟨k₀, v₀⟩ := hd
    by_cases h0 : k₀ = k
    · subst h0; simp [alookup] at h
    · simp [alookup, h0] at h ⊢
      exact ih h

-- -------------------------------------------------------------------
-- Data model: user profiles (src/modelling/backend/main.py)
-- -------------------------------------------------------------------

/-- A user profile, the structured form of the JSON dictionaries stored in
`user_profiles`: `{"username": ..., "cluster_interactions": {...},
"seen_videos": [...], "liked_videos": [...]}`. Cluster-interaction keys are
the `str(cluster_label)` strings produced by the backend. -/
structure Profile where
  username : String
  cluster_interactions : List (String × Nat)
  seen_videos : List Int
  liked_videos : List Int
deriving DecidableEq

/-- The in-memory profile collection `user_profiles`, keyed by username. -/
abbrev Store := List (String × Profile)

/-- Request-level failures of the backend, the embedded counterparts of
`HTTPException(400, "Username is required")` and
`HTTPException(404, "User not found")`. -/
inductive ApiError where
  | invalidUsername
  | userNotFound
deriving DecidableEq

instance {ε α : Type} [DecidableEq ε] [DecidableEq α] : DecidableEq (Except ε α) := fun a b =>
  match a, b with
  | .ok x, .ok y =>
    if h : x = y then isTrue (by rw [h]) else isFalse (by intro hh; cases hh; exact h rfl)
  | .ok _, .error _ => isFalse (by intro hh; cases hh)
  | .error _, .ok _ => isFalse (by intro hh; cases hh)
  | .error e, .error f =>
    if h : e = f then isTrue (by rw [h]) else isFalse (by intro hh; cases hh; exact h rfl)

/-- Outcome of one backend operation: its result (or error), the profile
collection afterwards, and how many times `save_user_profiles` ran. -/
structure OpResult (α : Type) where
  result : Except ApiError α
  store : Store
  writes : Nat
deriving DecidableEq

/-- Embedding of Python's `str.isspace()` test on one character, the
predicate `str.strip()` strips by: true exactly on CPython's whitespace
code points (bidirectional classes WS/B/S and general category Zs),
namely 0x09-0x0D (tab, LF, vertical tab, form feed, CR), 0x1C-0x1F and
0x20, 0x85 (NEL), 0xA0 (no-break space), 0x1680, 0x2000-0x200A, 0x2028,
0x2029, 0x202F, 0x205F and 0x3000. -/
def pyIsSpace (c : Char) : Bool :=
  decide ((0x09 ≤ c.toNat ∧ c.toNat ≤ 0x0D) ∨
    (0x1C ≤ c.toNat ∧ c.toNat ≤ 0x20) ∨
    c.toNat = 0x85 ∨ c.toNat = 0xA0 ∨ c.toNat = 0x1680 ∨
    (0x2000 ≤ c.toNat ∧ c.toNat ≤ 0x200A) ∨
    c.toNat = 0x2028 ∨ c.toNat = 0x2029 ∨
    c.toNat = 0x202F ∨ c.toNat = 0x205F ∨ c.toNat = 0x3000)

/-- Embedding of Python `str.strip()`: drop leading and trailing
characters satisfying `str.isspace()`.  Written structurally over the
character list so that it evaluates inside the kernel. -/
def strip (s : String) : String :=
  ⟨(((s.data.dropWhile pyIsSpace).reverse).dropWhile pyIsSpace).reverse⟩

example : strip " \x0Calice\x0C " = "alice" := by decide

example : strip "\x0B" = "" := by decide

example : strip "  bob　" = "bob" := by decide

/-- Embedding of `create_user` (`src/modelling/backend/main.py`, lines
259-282): strip the requested username, reject it when the stripped form
is empty, create a fresh profile when the username is new (persisting
once), and return the stored profile. -/
def create_user (s : Store) (raw : String) : OpResult Profile :=
  let username := strip raw
  if username = "" then ⟨.error .invalidUsername, s, 0⟩
  else
    match alookup s username with
    | some p => ⟨.ok p, s, 0⟩
    | none =>
      let p : Profile := ⟨username, [], [], []⟩
      ⟨.ok p, aupdate s username p, 1⟩

/-- Embedding of `record_interaction` (`src/modelling/backend/main.py`,
lines 291-311): look the user up (404 when absent, before any mutation),
bump `cluster_interactions[str(cluster_label)]` from a default of 0, add
the pid to `seen_videos` and `liked_videos` when not already present, and
persist once. -/
def record_interaction (s : Store) (username : String) (pid : Int)
    (cluster_label : Int) : OpResult Unit :=
  match alookup s username with
  | none => ⟨.error .userNotFound, s, 0⟩
  | some profile =>
    let ckey := toString cluster_label
    let newInteractions :=
      aupdate profile.cluster_interactions ckey
        ((alookup profile.cluster_interactions ckey).getD 0 + 1)
    let newSeen :=
      if pid ∈ profile.seen_videos then profile.seen_videos
      else profile.seen_videos ++ [pid]
    let newLiked :=
      if pid ∈ profile.liked_videos then profile.liked_videos
      else profile.liked_videos ++ [pid]
    let p : Profile := ⟨profile.username, newInteractions, newSeen, newLiked⟩
    ⟨.ok (), aupdate s username p, 1⟩

example :
    (create_user [] "bob").store = [("bob", ⟨"bob", [], [], []⟩)] := by decide

example :
    (record_interaction [("bob", ⟨"bob", [], [], []⟩)] "bob" 7 2).store
      = [("bob", ⟨"bob", [("2", 1)], [7], [7]⟩)] := by decide

example :
    (record_interaction [("bob", ⟨"bob", [], [], []⟩)] "ghost" 7 2)
      = ⟨.error .userNotFound, [("bob", ⟨"bob", [], [], []⟩)], 0⟩ := by decide

/-- Claim C4: for every username that has no profile in the store,
`record_interaction` fails with `UserNotFound`, leaves the profile
collection unchanged, and performs no persistence write. -/
theorem record_interaction_unknown_user (s : Store) (u : String) (pid c : Int)
    (h : alookup s u = none) :
    record_interaction s u pid c = ⟨.error .userNotFound, s, 0⟩ := by
  simp [record_interaction, h]

/-- Witness for claim C4, at Scenario E's unknown user `"ghost"` against a
store holding only `"alice"`. -/
theorem record_interaction_unknown_user_witness :
    alookup [("alice", (⟨"alice", [], [], []⟩ : Profile))] "ghost" = none ∧
    record_interaction [("alice", (⟨"alice", [], [], []⟩ : Profile))] "ghost" 1 0
      = ⟨.error .userNotFound, [("alice", ⟨"alice", [], [], []⟩)], 0⟩ :=
  ⟨by decide, record_interaction_unknown_user _ _ 1 0 (by decide)⟩

/-- Claim C8: user creation is idempotent.  If a `create_user` call
returned profile `p` leaving the collection at `s'`, then a second call
with the same raw username returns the same profile `p`, leaves the
collection at `s'`, and performs no persistence write. -/
theorem create_user_idempotent (s : Store) (raw : String) (p : Profile)
    (s' : Store) (w : Nat) (h : create_user s raw = ⟨.ok p, s', w⟩) :
    create_user s' raw = ⟨.ok p, s', 0⟩ := by
  by_cases h0 : strip raw = ""
  · simp [create_user, h0] at h
  · rcases hl : alookup s (strip raw) with _ | q
    · simp [create_user, h0, hl] at h
      obtain ⟨hp, hs, -⟩ := h
      subst hs
      simp [create_user, h0, alookup_aupdate_self, hp]
    · simp [create_user, h0, hl] at h
      obtain ⟨hp, hs, -⟩ := h
      subst hs
      simp [create_user, h0, hl, hp]

/-- Witness for claim C8: creating `"bob"` twice from the empty store. -/
theorem create_user_idempotent_witness :
    create_user [] "bob"
      = ⟨.ok ⟨"bob", [], [], []⟩, [("bob", ⟨"bob", [], [], []⟩)], 1⟩ ∧
    create_user [("bob", ⟨"bob", [], [], []⟩)] "bob"
      = ⟨.ok ⟨"bob", [], [], []⟩, [("bob", ⟨"bob", [], [], []⟩)], 0⟩ :=
  ⟨by decide,
    create_user_idempotent [] "bob" ⟨"bob", [], [], []⟩
      [("bob", ⟨"bob", [], [], []⟩)] 1 (by decide)⟩

/-- Claim C10: `create_user` normalizes the username by stripping
whitespace before any check or storage.  Two raw usernames with the same
stripped form behave identically; a raw username whose stripped form is
empty is rejected with no write, exactly like the empty string; a raw
username whose stripped form is new to the store creates a profile keyed
by and carrying the stripped name. -/
theorem create_user_strips_username (s : Store) (raw raw₂ : String)
    (heq : strip raw = strip raw₂) :
    create_user s raw = create_user s raw₂ ∧
    (strip raw = "" → create_user s raw = ⟨.error .invalidUsername, s, 0⟩) ∧
    (strip raw ≠ "" → alookup s (strip raw) = none →
      ∃ p : Profile, (create_user s raw).result = .ok p ∧
        p.username = strip raw ∧
        (create_user s raw).store = s ++ [(strip raw, p)]) := by
  refine ⟨by simp [create_user, heq], fun h0 => by simp [create_user, h0],
    fun h0 hl => ⟨⟨strip raw, [], [], []⟩, ?_, rfl, ?_⟩⟩
  · simp [create_user, h0, hl]
  · simp [create_user, h0, hl, alookup_of_none_aupdate _ _ _ hl]

/-- Witness for claim C10: creating `" \x0Calice\x0C "` (form feeds and
spaces around the name) behaves exactly like creating `"alice"` and, on
the empty store, stores the profile under the stripped key `"alice"`;
and the whitespace-only username `"\x0B"` (vertical tab) is rejected
exactly like the empty string. -/
theorem create_user_strips_username_witness :
    (strip " \x0Calice\x0C " = strip "alice" ∧
      (create_user [] " \x0Calice\x0C " = create_user [] "alice" ∧
        (strip " \x0Calice\x0C " = "" →
          create_user [] " \x0Calice\x0C " = ⟨.error .invalidUsername, [], 0⟩) ∧
        (strip " \x0Calice\x0C " ≠ "" →
          alookup ([] : Store) (strip " \x0Calice\x0C ") = none →
          ∃ p : Profile, (create_user [] " \x0Calice\x0C ").result = .ok p ∧
            p.username = strip " \x0Calice\x0C " ∧
            (create_user [] " \x0Calice\x0C ").store
              = [] ++ [(strip " \x0Calice\x0C ", p)]))) ∧
    (strip "\x0B" = strip "" ∧
      create_user [] "\x0B" = ⟨.error .invalidUsername, [], 0⟩) :=
  ⟨⟨by decide, create_user_strips_username [] " \x0Calice\x0C " "alice" (by decide)⟩,
    ⟨by decide,
      (create_user_strips_username [] "\x0B" "" (by decide)).2.1 (by decide)⟩⟩

/-- Claim C3: for an existing user, `record_interaction` performs exactly
one persisted mutation of that user's profile: the interaction count for
`str(cluster_label)` is incremented from an effective prior value of 0,
the pid is appended to `seen_videos` and to `liked_videos` when absent,
the username field and all other interaction counts are unchanged, and
every other user's profile is untouched. -/
theorem record_interaction_atomic_updates (s : Store) (u : String)
    (pid c : Int) (p : Profile) (h : alookup s u = some p) :
    ∃ p' : Profile,
      record_interaction s u pid c = ⟨.ok (), aupdate s u p', 1⟩ ∧
      alookup (record_interaction s u pid c).store u = some p' ∧
      p'.username = p.username ∧
      alookup p'.cluster_interactions (toString c)
        = some ((alookup p.cluster_interactions (toString c)).getD 0 + 1) ∧
      (∀ k, k ≠ toString c →
        alookup p'.cluster_interactions k = alookup p.cluster_interactions k) ∧
      p'.seen_videos
        = (if pid ∈ p.seen_videos then p.seen_videos
           else p.seen_videos ++ [pid]) ∧
      p'.liked_videos
        = (if pid ∈ p.liked_videos then p.liked_videos
           else p.liked_videos ++ [pid]) ∧
      (∀ u', u' ≠ u →
        alookup (record_interaction s u pid c).store u' = alookup s u') := by
  refine ⟨⟨p.username,
      aupdate p.cluster_interactions (toString c)
        ((alookup p.cluster_interactions (toString c)).getD 0 + 1),
      if pid ∈ p.seen_videos then p.seen_videos else p.seen_videos ++ [pid],
      if pid ∈ p.liked_videos then p.liked_videos else p.liked_videos ++ [pid]⟩,
    ?_, ?_, rfl, alookup_aupdate_self _ _ _,
    fun k hk => alookup_aupdate_ne _ _ _ _ hk, rfl, rfl, fun u' hu => ?_⟩
  · simp [record_interaction, h]
  · simp [record_interaction, h, alookup_aupdate_self]
  · simp [record_interaction, h, alookup_aupdate_ne _ _ _ _ hu]

/-- Witness for claim C3: recording a like of video 7 in cluster 2 for
`"alice"`, whose profile already counts 4 interactions with cluster 2 and
has seen and liked video 5. -/
theorem record_interaction_atomic_updates_witness :
    alookup [("alice", (⟨"alice", [("2", 4)], [5], [5]⟩ : Profile))] "alice"
      = some ⟨"alice", [("2", 4)], [5], [5]⟩ ∧
    (∃ p' : Profile,
      record_interaction [("alice", ⟨"alice", [("2", 4)], [5], [5]⟩)] "alice" 7 2
        = ⟨.ok (),
            aupdate [("alice", ⟨"alice", [("2", 4)], [5], [5]⟩)] "alice" p', 1⟩ ∧
      alookup (record_interaction
          [("alice", ⟨"alice", [("2", 4)], [5], [5]⟩)] "alice" 7 2).store "alice"
        = some p' ∧
      p'.username = Profile.username ⟨"alice", [("2", 4)], [5], [5]⟩ ∧
      alookup p'.cluster_interactions (toString (2 : Int))
        = some ((alookup (Profile.cluster_interactions
            ⟨"alice", [("2", 4)], [5], [5]⟩) (toString (2 : Int))).getD 0 + 1) ∧
      (∀ k, k ≠ toString (2 : Int) →
        alookup p'.cluster_interactions k
          = alookup (Profile.cluster_interactions
              ⟨"alice", [("2", 4)], [5], [5]⟩) k) ∧
      p'.seen_videos
        = (if (7 : Int) ∈ Profile.seen_videos ⟨"alice", [("2", 4)], [5], [5]⟩
           then Profile.seen_videos ⟨"alice", [("2", 4)], [5], [5]⟩
           else Profile.seen_videos ⟨"alice", [("2", 4)], [5], [5]⟩ ++ [7]) ∧
      p'.liked_videos
        = (if (7 : Int) ∈ Profile.liked_videos ⟨"alice", [("2", 4)], [5], [5]⟩
           then Profile.liked_videos ⟨"alice", [("2", 4)], [5], [5]⟩
           else Profile.liked_videos ⟨"alice", [("2", 4)], [5], [5]⟩ ++ [7]) ∧
      (∀ u', u' ≠ "alice" →
        alookup (record_interaction
            [("alice", ⟨"alice", [("2", 4)], [5], [5]⟩)] "alice" 7 2).store u'
          = alookup [("alice", (⟨"alice", [("2", 4)], [5], [5]⟩ : Profile))] u')) :=
  ⟨by decide,
    record_interaction_atomic_updates
      [("alice", ⟨"alice", [("2", 4)], [5], [5]⟩)] "alice" 7 2
      ⟨"alice", [("2", 4)], [5], [5]⟩ (by decide)⟩

-- -------------------------------------------------------------------
-- Reachable stores and the liked-subset-of-seen invariant (claim C9)
-- -------------------------------------------------------------------

/-- The invariant of §3 of the spec: in every stored profile,
`liked_videos` is a subset of `seen_videos`. -/
def LikedSubSeen (s : Store) : Prop :=
  ∀ e ∈ s, ∀ v ∈ (Prod.snd e).liked_videos, v ∈ (Prod.snd e).seen_videos

/-- Store states reachable from the empty collection by any sequence of
`create_user` and `record_interaction` calls. -/
inductive Reachable : Store → Prop where
  | empty : Reachable []
  | create (s : Store) (raw : String) :
      Reachable s → Reachable (create_user s raw).store
  | record (s : Store) (u : String) (pid c : Int) :
      Reachable s → Reachable (record_interaction s u pid c).store

/-- Claim C9: every store state reachable from the empty collection by
`create_user` and `record_interaction` calls satisfies the invariant that
each profile's `liked_videos` is a subset of its `seen_videos`. -/
theorem reachable_liked_subset_seen (s : Store) (h : Reachable s) :
    LikedSubSeen s := by
  induction h with
  | empty => intro e he; simp at he
  | create s raw _ ih =>
    intro e he v hv
    by_cases h0 : strip raw = ""
    · simp only [create_user, h0, if_pos rfl] at he
      exact ih e he v hv
    · rcases hl : alookup s (strip raw) with _ | q
      · simp only [create_user, if_neg h0, hl] at he
        rcases mem_of_mem_aupdate he with h' | h'
        · exact ih e h' v hv
        · rw [h'] at hv; simp at hv
      · simp only [create_user, if_neg h0, hl] at he
        exact ih e he v hv
  | record s u pid c _ ih =>
    intro e he v hv
    rcases hl : alookup s u with _ | p
    · simp only [record_interaction, hl] at he
      exact ih e he v hv
    · simp only [record_interaction, hl] at he
      rcases mem_of_mem_aupdate he with h' | h'
      · exact ih e h' v hv
      · have hsub : ∀ w ∈ p.liked_videos, w ∈ p.seen_videos :=
          ih (u, p) (mem_of_alookup_eq_some hl)
        rw [h'] at hv ⊢
        simp only at hv ⊢
        have hv' : v ∈ p.liked_videos ∨ v = pid := by
          by_cases hlk : pid ∈ p.liked_videos
          · simp [hlk] at hv; exact Or.inl hv
          · simp [hlk] at hv
            rcases hv with hv | hv
            · exact Or.inl hv
            · exact Or.inr hv
        have hgoal : v ∈ p.seen_videos ∨ v = pid → v ∈
            (if pid ∈ p.seen_videos then p.seen_videos
             else p.seen_videos ++ [pid]) := by
          intro hc
          by_cases hs : pid ∈ p.seen_videos
          · simp [hs]
            rcases hc with hc | hc
            · exact hc
            · rw [hc]; exact hs
          · simp [hs]
            rcases hc with hc | hc
            · exact Or.inl hc
            · exact Or.inr hc
        rcases hv' with hv' | hv'
        · exact hgoal (Or.inl (hsub v hv'))
        · exact hgoal (Or.inr hv')

/-- Witness for claim C9: the store reached by creating `"alice"` and then
recording a like of video 7 in cluster 2 satisfies the invariant. -/
theorem reachable_liked_subset_seen_witness :
    Reachable
      [("alice", (⟨"alice", [("2", 1)], [7], [7]⟩ : Profile))] ∧
    LikedSubSeen
      [("alice", (⟨"alice", [("2", 1)], [7], [7]⟩ : Profile))] :=
  ⟨Reachable.record _ "alice" 7 2 (Reachable.create _ "alice" Reachable.empty),
    reachable_liked_subset_seen _
      (Reachable.record _ "alice" 7 2 (Reachable.create _ "alice" Reachable.empty))⟩

-- -------------------------------------------------------------------
-- Recommendation engine (src/modelling/backend/main.py, lines 160-225)
-- -------------------------------------------------------------------

/-- One recommendation item, the embedded form of
`{"pid": int, "cluster_label": int}`. -/
structure RecItem where
  pid : Int
  cluster_label : Int
deriving DecidableEq

/-- Digit-list accumulator for `str_to_int`. -/
def digitsToNat : List Char → Nat → Option Nat
  | [], acc => some acc
  | c :: cs, acc =>
    if c.isDigit then digitsToNat cs (acc * 10 + (c.toNat - 48)) else none

/-- Embedding of Python `int(str)` on canonical integer strings (an
optional minus sign followed by decimal digits); any other string fails,
matching the `except` branch that skips unparseable cluster keys.  Written
structurally over the character list so it evaluates in the kernel. -/
def str_to_int (s : String) : Option Int :=
  match s.data with
  | [] => none
  | '-' :: [] => none
  | '-' :: c :: cs => (digitsToNat (c :: cs) 0).map (fun n => -(n : Int))
  | c :: cs => (digitsToNat (c :: cs) 0).map (fun n => (n : Int))

/-- Embedding of `build_pid_to_cluster_map` (lines 111-128): fold over the
cluster index in insertion order; keys that do not parse as integers are
skipped; the last cluster writing a pid wins. -/
def build_pid_to_cluster_map (videos_by_cluster : List (String × List Int)) :
    List (Int × Int) :=
  videos_by_cluster.foldl
    (fun mapping kv =>
      match str_to_int kv.1 with
      | none => mapping
      | some cluster_int =>
        kv.2.foldl (fun m pid => aupdate m pid cluster_int) mapping)
    []

/-- The `all_candidates` pool of `recommend_with_priority_pattern` (lines
187-189) before shuffling: every video id across all clusters, in index
order, with multiplicity. -/
def all_candidates (videos_by_cluster : List (String × List Int)) : List Int :=
  (videos_by_cluster.map Prod.snd).flatten

/-- The head of `sorted(videos_by_cluster.keys(), key=lambda c:
interactions.get(c, 0), reverse=True)` (lines 182-184, 192): Python's sort
is stable also under `reverse=True`, so the head is the first key (in
index order) attaining the maximal interaction count. -/
def top_cluster (interactions : List (String × Nat)) (keys : List String) :
    Option String :=
  keys.foldl
    (fun best k =>
      match best with
      | none => some k
      | some b =>
        if (alookup interactions b).getD 0 < (alookup interactions k).getD 0
        then some k else best)
    none

/-- The `priority_pool` of lines 193-196 before shuffling: the top
cluster's videos, in index order, minus the seen set (empty when the index
has no clusters). -/
def priority_base (interactions : List (String × Nat)) (seen : List Int)
    (videos_by_cluster : List (String × List Int)) : List Int :=
  match top_cluster interactions (videos_by_cluster.map Prod.fst) with
  | none => []
  | some t => ((alookup videos_by_cluster t).getD []).filter (fun pid => pid ∉ seen)

/-- The dup-skipping inner loops of lines 207-208 and 214-215: pop the
front of the pool while it is already among the selected ids. -/
def dropSelected (ordered : List Int) : List Int → List Int
  | [] => []
  | p :: rest => if p ∈ ordered then dropSelected ordered rest else p :: rest

/-- One take from a pool (lines 207-210 or 214-217): skip already-selected
ids, then append the front of what remains, if any.  Returns the new
selection and the remaining pool. -/
def takeOne (ordered pool : List Int) : List Int × List Int :=
  match dropSelected ordered pool with
  | [] => (ordered, [])
  | p :: rest => (ordered ++ [p], rest)

/-- The `for _ in range(2)` block of lines 204-210: one unconditional take
from the regular pool (the loop guard already ensured the bound is not
reached) followed by a second take unless the bound was just reached. -/
def regularTakes (num_items : Nat) (ordered regular_pool : List Int) :
    List Int × List Int :=
  let s1 := takeOne ordered regular_pool
  if num_items ≤ s1.1.length then s1 else takeOne s1.1 s1.2

/-- The interleaving `while` loop of lines 202-217, with explicit fuel
(the wrapper passes enough fuel for the loop to run to completion, since
every iteration removes at least one element from the pools): take up to
two ids from the regular pool — re-checking the count bound before the
second take — then, if the bound is still not reached, one id from the
priority pool. -/
def interleaveGo : Nat → Nat → List Int → List Int → List Int → List Int
  | 0, _, ordered, _, _ => ordered
  | fuel + 1, num_items, ordered, regular_pool, priority_pool =>
    if ordered.length < num_items ∧ (regular_pool ≠ [] ∨ priority_pool ≠ []) then
      let s2 := regularTakes num_items ordered regular_pool
      if num_items ≤ s2.1.length then s2.1
      else
        let s3 := takeOne s2.1 priority_pool
        interleaveGo fuel num_items s3.1 s2.2 s3.2
    else ordered

/-- Embedding of `recommend_with_priority_pattern` (lines 160-225).  The
two `random.shuffle` calls are embedded by the function parameters
`shuffleAll` and `shufflePriority`, applied to the pools exactly where the
source shuffles them (`all_candidates` before the seen-filter of line 199,
the priority pool after its seen-filter); theorems constrain their outputs
to be permutations of their inputs.  The first parameter is the unused
`username` of the source.  The interleaving loop runs with enough fuel to
terminate exactly as the `while` loop does. -/
def recommend_with_priority_pattern (_username : String)
    (interactions : List (String × Nat)) (seen : List Int)
    (videos_by_cluster : List (String × List Int))
    (shuffleAll shufflePriority : List Int → List Int) (num_items : Nat) :
    List RecItem :=
  let pid_to_cluster := build_pid_to_cluster_map videos_by_cluster
  let shuffled_all := shuffleAll (all_candidates videos_by_cluster)
  let priority_pool :=
    shufflePriority (priority_base interactions seen videos_by_cluster)
  let regular_pool := shuffled_all.filter (fun pid => pid ∉ seen)
  let ordered :=
    interleaveGo (regular_pool.length + priority_pool.length + 1)
      num_items [] regular_pool priority_pool
  (ordered.take num_items).map
    (fun pid => ⟨pid, (alookup pid_to_cluster pid).getD (-1)⟩)

example :
    recommend_with_priority_pattern "u" [("2", 5), ("7", 1)] [101]
      [("2", [101, 102]), ("7", [201])] id id 8
      = [⟨102, 2⟩, ⟨201, 7⟩] := by decide

example :
    priority_base [("2", 5), ("7", 1)] [101] [("2", [101, 102]), ("7", [201])]
      = [102] := by decide

example :
    all_candidates [("2", [101, 102]), ("7", [201])] = [101, 102, 201] := by
  decide

-- -------------------------------------------------------------------
-- Lemmas on the pool-manipulation steps
-- -------------------------------------------------------------------

theorem dropSelected_subset (o : List Int) :
    ∀ l x, x ∈ dropSelected o l → x ∈ l := by
  intro l
  induction l with
  | nil => intro x h; simp [dropSelected] at h
  | cons p rest ih =>
    intro x h
    by_cases hp : p ∈ o
    · simp only [dropSelected, if_pos hp] at h
      exact List.mem_cons_of_mem _ (ih x h)
    · simp only [dropSelected, if_neg hp] at h
      exact h

theorem dropSelected_cover (o : List Int) :
    ∀ l x, x ∈ l → x ∈ o ∨ x ∈ dropSelected o l := by
  intro l
  induction l with
  | nil => intro x h; simp at h
  | cons p rest ih =>
    intro x h
    by_cases hp : p ∈ o
    · simp only [dropSelected, if_pos hp]
      rcases List.mem_cons.mp h with h' | h'
      · exact Or.inl (h' ▸ hp)
      · exact ih x h'
    · simp only [dropSelected, if_neg hp]
      exact Or.inr h

theorem dropSelected_length_le (o : List Int) :
    ∀ l, (dropSelected o l).length ≤ l.length := by
  intro l
  induction l with
  | nil => simp [dropSelected]
  | cons p rest ih =>
    by_cases hp : p ∈ o
    · simp only [dropSelected, if_pos hp]
      exact Nat.le_trans ih (Nat.le_succ _)
    · simp [dropSelected, if_neg hp]

theorem dropSelected_head_not_mem (o : List Int) :
    ∀ l p rest, dropSelected o l = p :: rest → p ∉ o := by
  intro l
  induction l with
  | nil => intro p rest h; simp [dropSelected] at h
  | cons q rest' ih =>
    intro p rest h
    by_cases hq : q ∈ o
    · simp only [dropSelected, if_pos hq] at h
      exact ih p rest h
    · simp only [dropSelected, if_neg hq] at h
      obtain ⟨hq1, -⟩ := List.cons.inj h
      exact hq1 ▸ hq

theorem takeOne_fst_mono {o l : List Int} {x : Int} (h : x ∈ o) :
    x ∈ (takeOne o l).1 := by
  unfold takeOne
  rcases hd : dropSelected o l with _ | ⟨p, rest⟩
  · exact h
  · exact List.mem_append_left _ h

theorem takeOne_fst_sub {o l : List Int} {x : Int}
    (h : x ∈ (takeOne o l).1) : x ∈ o ∨ x ∈ l := by
  unfold takeOne at h
  rcases hd : dropSelected o l with _ | ⟨p, rest⟩ <;> rw [hd] at h
  · exact Or.inl h
  · simp only [List.mem_append, List.mem_singleton] at h
    rcases h with h | h
    · exact Or.inl h
    · exact Or.inr (dropSelected_subset o l x (hd ▸ h ▸ List.mem_cons_self p rest))

theorem takeOne_snd_sub {o l : List Int} {x : Int}
    (h : x ∈ (takeOne o l).2) : x ∈ l := by
  unfold takeOne at h
  rcases hd : dropSelected o l with _ | ⟨p, rest⟩ <;> rw [hd] at h
  · simp at h
  · exact dropSelected_subset o l x (hd ▸ List.mem_cons_of_mem p h)

theorem takeOne_cover {o l : List Int} {x : Int} (h : x ∈ l) :
    x ∈ (takeOne o l).1 ∨ x ∈ (takeOne o l).2 := by
  rcases dropSelected_cover o l x h with h' | h'
  · exact Or.inl (takeOne_fst_mono h')
  · unfold takeOne
    rcases hd : dropSelected o l with _ | ⟨p, rest⟩ <;> rw [hd] at h'
    · simp at h'
    · rcases List.mem_cons.mp h' with h'' | h''
      · exact Or.inl (List.mem_append_right _ (by simp [h'']))
      · exact Or.inr h''

theorem takeOne_snd_length_le (o l : List Int) :
    (takeOne o l).2.length ≤ l.length := by
  unfold takeOne
  rcases hd : dropSelected o l with _ | ⟨p, rest⟩
  · simp
  · have := dropSelected_length_le o l
    rw [hd] at this
    simpa using Nat.le_trans (Nat.le_succ _) this

theorem takeOne_snd_length_lt (o : List Int) {l : List Int} (h : l ≠ []) :
    (takeOne o l).2.length < l.length := by
  unfold takeOne
  rcases hd : dropSelected o l with _ | ⟨p, rest⟩
  · simpa using List.length_pos.mpr h
  · have := dropSelected_length_le o l
    rw [hd] at this
    simpa using this

theorem takeOne_fst_nodup {o : List Int} (l : List Int) (h : o.Nodup) :
    (takeOne o l).1.Nodup := by
  unfold takeOne
  rcases hd : dropSelected o l with _ | ⟨p, rest⟩
  · exact h
  · have hp : p ∉ o := dropSelected_head_not_mem o l p rest hd
    simp [List.nodup_append, h, hp]

theorem regularTakes_fst_mono {n : Nat} {o r : List Int} {x : Int}
    (h : x ∈ o) : x ∈ (regularTakes n o r).1 := by
  simp only [regularTakes]
  split
  · exact takeOne_fst_mono h
  · exact takeOne_fst_mono (takeOne_fst_mono h)

theorem regularTakes_fst_sub {n : Nat} {o r : List Int} {x : Int}
    (h : x ∈ (regularTakes n o r).1) : x ∈ o ∨ x ∈ r := by
  simp only [regularTakes] at h
  split at h
  · exact takeOne_fst_sub h
  · rcases takeOne_fst_sub h with h' | h'
    · exact takeOne_fst_sub h'
    · exact Or.inr (takeOne_snd_sub h')

theorem regularTakes_snd_sub {n : Nat} {o r : List Int} {x : Int}
    (h : x ∈ (regularTakes n o r).2) : x ∈ r := by
  simp only [regularTakes] at h
  split at h
  · exact takeOne_snd_sub h
  · exact takeOne_snd_sub (takeOne_snd_sub h)

theorem regularTakes_cover {n : Nat} {o r : List Int} {x : Int} (h : x ∈ r) :
    x ∈ (regularTakes n o r).1 ∨ x ∈ (regularTakes n o r).2 := by
  simp only [regularTakes]
  split
  · exact takeOne_cover h
  · rcases takeOne_cover (o := o) (l := r) h with h' | h'
    · exact Or.inl (takeOne_fst_mono h')
    · exact takeOne_cover h'

theorem regularTakes_fst_nodup {n : Nat} {o : List Int} (r : List Int)
    (h : o.Nodup) : (regularTakes n o r).1.Nodup := by
  simp only [regularTakes]
  split
  · exact takeOne_fst_nodup _ h
  · exact takeOne_fst_nodup _ (takeOne_fst_nodup _ h)

theorem regularTakes_snd_length_le (n : Nat) (o r : List Int) :
    (regularTakes n o r).2.length ≤ r.length := by
  simp only [regularTakes]
  split
  · exact takeOne_snd_length_le o r
  · exact Nat.le_trans (takeOne_snd_length_le _ _) (takeOne_snd_length_le o r)

theorem regularTakes_snd_length_lt (n : Nat) (o : List Int) {r : List Int}
    (h : r ≠ []) : (regularTakes n o r).2.length < r.length := by
  simp only [regularTakes]
  split
  · exact takeOne_snd_length_lt o h
  · exact Nat.lt_of_le_of_lt (takeOne_snd_length_le _ _)
      (takeOne_snd_length_lt o h)

theorem takeOne_of_nil (o : List Int) : takeOne o [] = (o, []) := by
  simp [takeOne, dropSelected]

theorem regularTakes_of_nil (n : Nat) (o : List Int) :
    regularTakes n o [] = (o, []) := by
  simp [regularTakes, takeOne_of_nil]

-- -------------------------------------------------------------------
-- Lemmas on the interleaving loop
-- -------------------------------------------------------------------

theorem interleaveGo_mem : ∀ (fuel n : Nat) (o r p : List Int) (x : Int),
    x ∈ interleaveGo fuel n o r p → x ∈ o ∨ x ∈ r ∨ x ∈ p := by
  intro fuel
  induction fuel with
  | zero =>
    intro n o r p x h
    simp only [interleaveGo] at h
    exact Or.inl h
  | succ fuel ih =>
    intro n o r p x h
    simp only [interleaveGo] at h
    split at h
    · split at h
      · rcases regularTakes_fst_sub h with h' | h'
        · exact Or.inl h'
        · exact Or.inr (Or.inl h')
      · rcases ih _ _ _ _ _ h with h' | h' | h'
        · rcases takeOne_fst_sub h' with h'' | h''
          · rcases regularTakes_fst_sub h'' with h3 | h3
            · exact Or.inl h3
            · exact Or.inr (Or.inl h3)
          · exact Or.inr (Or.inr h'')
        · exact Or.inr (Or.inl (regularTakes_snd_sub h'))
        · exact Or.inr (Or.inr (takeOne_snd_sub h'))
    · exact Or.inl h

theorem interleaveGo_nodup : ∀ (fuel n : Nat) (o r p : List Int),
    o.Nodup → (interleaveGo fuel n o r p).Nodup := by
  intro fuel
  induction fuel with
  | zero =>
    intro n o r p h
    simpa only [interleaveGo] using h
  | succ fuel ih =>
    intro n o r p h
    simp only [interleaveGo]
    split
    · split
      · exact regularTakes_fst_nodup _ h
      · exact ih _ _ _ _ (takeOne_fst_nodup _ (regularTakes_fst_nodup _ h))
    · exact h

theorem interleaveGo_cover : ∀ (fuel n : Nat) (o r p : List Int),
    r.length + p.length < fuel →
    (interleaveGo fuel n o r p).length < n →
    ∀ x, (x ∈ o ∨ x ∈ r ∨ x ∈ p) → x ∈ interleaveGo fuel n o r p := by
  intro fuel
  induction fuel with
  | zero =>
    intro n o r p hf
    exact absurd hf (Nat.not_lt_zero _)
  | succ fuel ih =>
    intro n o r p hf hlen x hx
    simp only [interleaveGo] at hlen ⊢
    by_cases hc : o.length < n ∧ (r ≠ [] ∨ p ≠ [])
    · rw [if_pos hc] at hlen ⊢
      by_cases h2 : n ≤ (regularTakes n o r).1.length
      · rw [if_pos h2] at hlen
        omega
      · rw [if_neg h2] at hlen ⊢
        apply ih
        · have hr2 : (regularTakes n o r).2.length ≤ r.length :=
            regularTakes_snd_length_le n o r
          have hp2 : (takeOne (regularTakes n o r).1 p).2.length ≤ p.length :=
            takeOne_snd_length_le _ _
          rcases hc.2 with hne | hne
          · have := regularTakes_snd_length_lt n o hne
            omega
          · have := takeOne_snd_length_lt (regularTakes n o r).1 hne
            omega
        · exact hlen
        · rcases hx with hx | hx | hx
          · exact Or.inl (takeOne_fst_mono (regularTakes_fst_mono hx))
          · rcases regularTakes_cover (n := n) (o := o) hx with h' | h'
            · exact Or.inl (takeOne_fst_mono h')
            · exact Or.inr (Or.inl h')
          · rcases takeOne_cover (o := (regularTakes n o r).1) hx with h' | h'
            · exact Or.inl h'
            · exact Or.inr (Or.inr h')
    · rw [if_neg hc] at hlen ⊢
      have hnil : r = [] ∧ p = [] := by
        by_cases hr : r = []
        · by_cases hp : p = []
          · exact ⟨hr, hp⟩
          · exact absurd ⟨hlen, Or.inr hp⟩ hc
        · exact absurd ⟨hlen, Or.inl hr⟩ hc
      rcases hx with hx | hx | hx
      · exact hx
      · rw [hnil.1] at hx; simp at hx
      · rw [hnil.2] at hx; simp at hx

/-- Claim C1: every video id in the list returned by
`recommend_with_priority_pattern` is absent from the profile's
`seen_videos`, for every profile, index, count, and pair of shuffle
outcomes. -/
theorem recommend_excludes_seen (username : String)
    (interactions : List (String × Nat)) (seen : List Int)
    (videos_by_cluster : List (String × List Int))
    (shuffleAll shufflePriority : List Int → List Int) (num_items : Nat)
    (hAll : (shuffleAll (all_candidates videos_by_cluster)).Perm
      (all_candidates videos_by_cluster))
    (hPrio : (shufflePriority
        (priority_base interactions seen videos_by_cluster)).Perm
      (priority_base interactions seen videos_by_cluster)) :
    ∀ item ∈ recommend_with_priority_pattern username interactions seen
        videos_by_cluster shuffleAll shufflePriority num_items,
      item.pid ∉ seen := by
  intro item hitem
  simp only [recommend_with_priority_pattern] at hitem
  rcases List.mem_map.mp hitem with ⟨pid, hpid, hitem'⟩
  have hpid' := (List.take_sublist _ _).subset hpid
  rw [← hitem']
  rcases interleaveGo_mem _ _ _ _ _ _ hpid' with h | h | h
  · simp at h
  · simpa using (List.mem_filter.mp h).2
  · have h2 : pid ∈ priority_base interactions seen videos_by_cluster :=
      hPrio.mem_iff.mp h
    simp only [priority_base] at h2
    rcases htc : top_cluster interactions (videos_by_cluster.map Prod.fst)
      with _ | t <;> rw [htc] at h2
    · simp at h2
    · simpa using (List.mem_filter.mp h2).2

/-- Witness for claim C1 at the Scenario D data (user with 5 interactions
on cluster 2 and 1 on cluster 7, video 101 already seen), with identity
shuffles. -/
theorem recommend_excludes_seen_witness :
    ((id : List Int → List Int)
        (all_candidates [("2", [101, 102]), ("7", [201])])).Perm
      (all_candidates [("2", [101, 102]), ("7", [201])]) ∧
    ((id : List Int → List Int)
        (priority_base [("2", 5), ("7", 1)] [101]
          [("2", [101, 102]), ("7", [201])])).Perm
      (priority_base [("2", 5), ("7", 1)] [101]
        [("2", [101, 102]), ("7", [201])]) ∧
    ∀ item ∈ recommend_with_priority_pattern "u" [("2", 5), ("7", 1)] [101]
        [("2", [101, 102]), ("7", [201])] id id 8,
      item.pid ∉ ([101] : List Int) :=
  ⟨by decide, by decide,
    recommend_excludes_seen "u" [("2", 5), ("7", 1)] [101]
      [("2", [101, 102]), ("7", [201])] id id 8 (by decide) (by decide)⟩

/-- Claim C2: `recommend_with_priority_pattern` returns at most
`num_items` items, and returns fewer only if the union of all cluster
videos minus the seen set has fewer than `num_items` elements. -/
theorem recommend_bounded_output (username : String)
    (interactions : List (String × Nat)) (seen : List Int)
    (videos_by_cluster : List (String × List Int))
    (shuffleAll shufflePriority : List Int → List Int) (num_items : Nat)
    (hAll : (shuffleAll (all_candidates videos_by_cluster)).Perm
      (all_candidates videos_by_cluster))
    (hPrio : (shufflePriority
        (priority_base interactions seen videos_by_cluster)).Perm
      (priority_base interactions seen videos_by_cluster)) :
    (recommend_with_priority_pattern username interactions seen
        videos_by_cluster shuffleAll shufflePriority num_items).length
      ≤ num_items ∧
    ((recommend_with_priority_pattern username interactions seen
        videos_by_cluster shuffleAll shufflePriority num_items).length
        < num_items →
      ((all_candidates videos_by_cluster).filter
          (fun pid => pid ∉ seen)).toFinset.card < num_items) := by
  constructor
  · simp only [recommend_with_priority_pattern, List.length_map,
      List.length_take]
    omega
  · intro hlen
    simp only [recommend_with_priority_pattern, List.length_map,
      List.length_take] at hlen
    have hlen' : (interleaveGo
        (((shuffleAll (all_candidates videos_by_cluster)).filter
            (fun pid => pid ∉ seen)).length
          + (shufflePriority
              (priority_base interactions seen videos_by_cluster)).length + 1)
        num_items []
        ((shuffleAll (all_candidates videos_by_cluster)).filter
          (fun pid => pid ∉ seen))
        (shufflePriority
          (priority_base interactions seen videos_by_cluster))).length
        < num_items := by omega
    have hcov := interleaveGo_cover _ num_items _ _ _
      (Nat.lt_succ_self _) hlen'
    have hsub : ((all_candidates videos_by_cluster).filter
        (fun pid => pid ∉ seen)).toFinset
        ⊆ (interleaveGo
            (((shuffleAll (all_candidates videos_by_cluster)).filter
                (fun pid => pid ∉ seen)).length
              + (shufflePriority
                  (priority_base interactions seen videos_by_cluster)).length
              + 1)
            num_items []
            ((shuffleAll (all_candidates videos_by_cluster)).filter
              (fun pid => pid ∉ seen))
            (shufflePriority
              (priority_base interactions seen videos_by_cluster))).toFinset := by
      intro a ha
      rw [List.mem_toFinset] at ha ⊢
      have ha' : a ∈ (shuffleAll (all_candidates videos_by_cluster)).filter
          (fun pid => pid ∉ seen) := ((hAll.filter _).mem_iff).mpr ha
      exact hcov a (Or.inr (Or.inl ha'))
    have hc1 := Finset.card_le_card hsub
    have hc2 := List.toFinset_card_le (interleaveGo
        (((shuffleAll (all_candidates videos_by_cluster)).filter
            (fun pid => pid ∉ seen)).length
          + (shufflePriority
              (priority_base interactions seen videos_by_cluster)).length + 1)
        num_items []
        ((shuffleAll (all_candidates videos_by_cluster)).filter
          (fun pid => pid ∉ seen))
        (shufflePriority
          (priority_base interactions seen videos_by_cluster)))
    omega

/-- Witness for claim C2 at the Scenario D data: 3 candidate videos, one
seen, count 8 — the output has at most 8 items and, being shorter than 8,
the unseen candidate set is smaller than 8. -/
theorem recommend_bounded_output_witness :
    ((id : List Int → List Int)
        (all_candidates [("2", [101, 102]), ("7", [201])])).Perm
      (all_candidates [("2", [101, 102]), ("7", [201])]) ∧
    ((recommend_with_priority_pattern "u" [("2", 5), ("7", 1)] [101]
        [("2", [101, 102]), ("7", [201])] id id 8).length ≤ 8 ∧
      ((recommend_with_priority_pattern "u" [("2", 5), ("7", 1)] [101]
          [("2", [101, 102]), ("7", [201])] id id 8).length < 8 →
        ((all_candidates [("2", [101, 102]), ("7", [201])]).filter
            (fun pid => pid ∉ ([101] : List Int))).toFinset.card < 8)) :=
  ⟨by decide,
    recommend_bounded_output "u" [("2", 5), ("7", 1)] [101]
      [("2", [101, 102]), ("7", [201])] id id 8 (by decide) (by decide)⟩

/-- Claim C7: the recommendation list contains each video id at most once,
for every profile, index (including indices repeating an id across
clusters), count, and any shuffle outcomes whatsoever. -/
theorem recommend_pids_nodup (username : String)
    (interactions : List (String × Nat)) (seen : List Int)
    (videos_by_cluster : List (String × List Int))
    (shuffleAll shufflePriority : List Int → List Int) (num_items : Nat) :
    ((recommend_with_priority_pattern username interactions seen
        videos_by_cluster shuffleAll shufflePriority num_items).map
      RecItem.pid).Nodup := by
  simp only [recommend_with_priority_pattern, List.map_map]
  have hnd : (interleaveGo
      (((shuffleAll (all_candidates videos_by_cluster)).filter
          (fun pid => pid ∉ seen)).length
        + (shufflePriority
            (priority_base interactions seen videos_by_cluster)).length + 1)
      num_items []
      ((shuffleAll (all_candidates videos_by_cluster)).filter
        (fun pid => pid ∉ seen))
      (shufflePriority
        (priority_base interactions seen videos_by_cluster))).Nodup :=
    interleaveGo_nodup _ _ _ _ _ List.nodup_nil
  have htake := hnd.sublist (List.take_sublist num_items _)
  have hcomp : (RecItem.pid ∘ fun pid =>
      (⟨pid, (alookup (build_pid_to_cluster_map videos_by_cluster) pid).getD
        (-1)⟩ : RecItem)) = id := rfl
  rw [hcomp, List.map_id]
  exact htake

-- -------------------------------------------------------------------
-- Nearest-centroid fallback classifier (src/internal_logics/fallback.py)
-- -------------------------------------------------------------------

/-- Squared Euclidean distance between two vectors.  `pairwise_distances`
computes the Euclidean distance; since the square root is strictly
monotone, the argmin (and its ties) over squared distances coincides with
the argmin over Euclidean distances, and the squared form keeps the
embedding in exact arithmetic. -/
def sqDist {α : Type} [LinearOrderedRing α] (v w : List α) : α :=
  (List.zipWith (fun a b => (a - b) * (a - b)) v w).sum

/-- Index of the first minimal element of a list, the embedding of
`np.argmin` (which returns the first occurrence of the minimum). -/
def argminIdx {α : Type} [LinearOrderedRing α] : List α → Nat
  | [] => 0
  | [_] => 0
  | x :: y :: ys =>
    let j := argminIdx (y :: ys)
    if (y :: ys).getD j 0 < x then j + 1 else 0

/-- Embedding of `predict_with_fallback` (`src/internal_logics/fallback.py`,
lines 4-16).  The preprocessor pipeline is the external feature pipeline's
responsibility; the embedding receives the already-transformed point.  The
centroid table is the `centroids_df`: rows in dataframe order, each
carrying its index label.  The result is the label of the first row
attaining the minimal distance; on an empty table `np.argmin` raises, so
no label is produced. -/
def predict_with_fallback {α : Type} [LinearOrderedRing α]
    (transformed_point : List α) (centroids : List (Int × List α)) :
    Option Int :=
  (centroids[(argminIdx
    (centroids.map (fun c => sqDist transformed_point c.2)))]?).map Prod.fst

example :
    predict_with_fallback ([1, 1] : List Int) [(0, [0, 0]), (1, [10, 10])]
      = some 0 := by decide

example :
    predict_with_fallback ([9, 9] : List Int) [(0, [0, 0]), (1, [10, 10])]
      = some 1 := by decide

theorem argminIdx_lt_length {α : Type} [LinearOrderedRing α] :
    ∀ (l : List α), l ≠ [] → argminIdx l < l.length := by
  intro l
  induction l with
  | nil => intro h; exact absurd rfl h
  | cons x xs ih =>
    intro _
    cases xs with
    | nil => simp [argminIdx]
    | cons y ys =>
      simp only [argminIdx]
      split
      · exact Nat.succ_lt_succ (ih (by simp))
      · simp

theorem argminIdx_min {α : Type} [LinearOrderedRing α] :
    ∀ (l : List α) (k : Nat), k < l.length →
      l.getD (argminIdx l) 0 ≤ l.getD k 0 := by
  intro l
  induction l with
  | nil => intro k hk; simp at hk
  | cons x xs ih =>
    intro k hk
    cases xs with
    | nil =>
      have hk0 : k = 0 := by simpa using Nat.lt_one_iff.mp (by simpa using hk)
      subst hk0
      simp [argminIdx]
    | cons y ys =>
      simp only [argminIdx]
      split
      · rename_i hlt
        cases k with
        | zero =>
          simpa using le_of_lt hlt
        | succ k' =>
          simpa using ih k' (by simpa using hk)
      · rename_i hge
        cases k with
        | zero => simp
        | succ k' =>
          have h1 : x ≤ (y :: ys).getD (argminIdx (y :: ys)) 0 := le_of_not_lt hge
          have h2 := ih k' (by simpa using hk)
          simpa using le_trans h1 h2

theorem argminIdx_first {α : Type} [LinearOrderedRing α] :
    ∀ (l : List α) (k : Nat), k < argminIdx l →
      l.getD (argminIdx l) 0 < l.getD k 0 := by
  intro l
  induction l with
  | nil => intro k hk; simp [argminIdx] at hk
  | cons x xs ih =>
    intro k hk
    cases xs with
    | nil => simp [argminIdx] at hk
    | cons y ys =>
      simp only [argminIdx] at hk ⊢
      split at hk
      · rename_i hlt
        rw [if_pos hlt]
        cases k with
        | zero => simpa using hlt
        | succ k' =>
          simpa using ih k' (by omega)
      · omega

theorem getD_map_sqDist {α : Type} [LinearOrderedRing α]
    (v : List α) (cs : List (Int × List α)) (k : Nat) (hk : k < cs.length) :
    (cs.map (fun c => sqDist v c.2)).getD k 0
      = sqDist v ((cs.getD k ((0 : Int), ([] : List α))).2) := by
  rw [List.getD_eq_getElem _ _ (by simpa using hk),
    List.getD_eq_getElem _ _ hk, List.getElem_map]

/-- Claim C5 counterexample: on the centroid table with rows
`1 → [0, 0]` and `0 → [0, 0]` (two centroids at the same, minimal,
distance from the vector `[0, 0]`), the claimed tie-break by lowest
numeric label demands label `0`, but `predict_with_fallback` follows
`np.argmin` and returns the label of the first row in table order,
label `1`. -/
theorem predict_with_fallback_tiebreak_counterexample :
    predict_with_fallback ([0, 0] : List Int) [(1, [0, 0]), (0, [0, 0])]
      = some 1 ∧
    predict_with_fallback ([0, 0] : List Int) [(1, [0, 0]), (0, [0, 0])]
      ≠ some 0 := by decide

/-- Claim C5 (amended): for every non-empty centroid table and vector of
matching dimensionality, `predict_with_fallback` returns the label of a
row attaining minimal (squared) Euclidean distance, and among ties it is
the earliest row in table order — not necessarily the lowest numeric
label.  Scenario A (`{0:[0,0], 1:[10,10]}`, vector `[1,1]`, result `0`)
is an instance. -/
theorem predict_with_fallback_min_dist {α : Type} [LinearOrderedRing α]
    (v : List α) (cs : List (Int × List α)) (hne : cs ≠ [])
    (hdim : ∀ c ∈ cs, c.2.length = v.length) :
    ∃ i : Nat, i < cs.length ∧
      predict_with_fallback v cs
        = some ((cs.getD i ((0 : Int), ([] : List α))).1) ∧
      (∀ j, j < cs.length →
        sqDist v ((cs.getD i ((0 : Int), ([] : List α))).2)
          ≤ sqDist v ((cs.getD j ((0 : Int), ([] : List α))).2)) ∧
      (∀ j, j < i →
        sqDist v ((cs.getD i ((0 : Int), ([] : List α))).2)
          < sqDist v ((cs.getD j ((0 : Int), ([] : List α))).2)) := by
  have hdne : cs.map (fun c => sqDist v c.2) ≠ [] := by
    simpa using hne
  have hlt : argminIdx (cs.map (fun c => sqDist v c.2)) < cs.length := by
    have := argminIdx_lt_length (cs.map (fun c => sqDist v c.2)) hdne
    simpa using this
  refine ⟨argminIdx (cs.map (fun c => sqDist v c.2)), hlt, ?_, ?_, ?_⟩
  · rw [predict_with_fallback, List.getElem?_eq_getElem hlt]
    rw [List.getD_eq_getElem _ _ hlt]
    rfl
  · intro j hj
    have h := argminIdx_min (cs.map (fun c => sqDist v c.2)) j
      (by simpa using hj)
    rwa [getD_map_sqDist v cs _ hlt, getD_map_sqDist v cs j hj] at h
  · intro j hj
    have h := argminIdx_first (cs.map (fun c => sqDist v c.2)) j hj
    rwa [getD_map_sqDist v cs _ hlt,
      getD_map_sqDist v cs j (Nat.lt_trans hj hlt)] at h

/-- Witness for the amended claim C5, at Scenario A: centroid table
`{0:[0,0], 1:[10,10]}`, vector `[1,1]`, result label `0`. -/
theorem predict_with_fallback_min_dist_witness :
    (([((0 : Int), ([0, 0] : List Int)), (1, [10, 10])]
        : List (Int × List Int)) ≠ [] ∧
      (∀ c ∈ ([((0 : Int), ([0, 0] : List Int)), (1, [10, 10])]
          : List (Int × List Int)),
        c.2.length = ([1, 1] : List Int).length)) ∧
    predict_with_fallback ([1, 1] : List Int) [(0, [0, 0]), (1, [10, 10])]
      = some 0 ∧
    (∃ i : Nat, i < ([((0 : Int), ([0, 0] : List Int)), (1, [10, 10])]
        : List (Int × List Int)).length ∧
      predict_with_fallback ([1, 1] : List Int) [(0, [0, 0]), (1, [10, 10])]
        = some ((([((0 : Int), ([0, 0] : List Int)), (1, [10, 10])]
            : List (Int × List Int)).getD i ((0 : Int), ([] : List Int))).1) ∧
      (∀ j, j < ([((0 : Int), ([0, 0] : List Int)), (1, [10, 10])]
          : List (Int × List Int)).length →
        sqDist ([1, 1] : List Int)
            ((([((0 : Int), ([0, 0] : List Int)), (1, [10, 10])]
              : List (Int × List Int)).getD i ((0 : Int), ([] : List Int))).2)
          ≤ sqDist ([1, 1] : List Int)
            ((([((0 : Int), ([0, 0] : List Int)), (1, [10, 10])]
              : List (Int × List Int)).getD j ((0 : Int), ([] : List Int))).2)) ∧
      (∀ j, j < i →
        sqDist ([1, 1] : List Int)
            ((([((0 : Int), ([0, 0] : List Int)), (1, [10, 10])]
              : List (Int × List Int)).getD i ((0 : Int), ([] : List Int))).2)
          < sqDist ([1, 1] : List Int)
            ((([((0 : Int), ([0, 0] : List Int)), (1, [10, 10])]
              : List (Int × List Int)).getD j ((0 : Int), ([] : List Int))).2))) :=
  ⟨⟨by decide, by decide⟩, by decide,
    predict_with_fallback_min_dist ([1, 1] : List Int)
      [(0, [0, 0]), (1, [10, 10])] (by decide) (by decide)⟩

/-- Claim C6 counterexample: the claim's Scenario B demands that, with
`allowed_labels={1}`, the table `{0:[0,0], 1:[10,10]}` and the vector
`[1,1]` yield label `1`.  `predict_with_fallback` accepts no
allowed-labels restriction at all — its only inputs are the data point,
the preprocessor pipeline, and the centroid table — so the call searches
the full table and returns `0`, never `1`. -/
theorem predict_with_fallback_no_allowed_labels_counterexample :
    predict_with_fallback ([1, 1] : List Int) [(0, [0, 0]), (1, [10, 10])]
      = some 0 ∧
    predict_with_fallback ([1, 1] : List Int) [(0, [0, 0]), (1, [10, 10])]
      ≠ some 1 := by decide

/-- Claim C6 (amended): `predict_with_fallback` takes no allowed-labels
parameter and never restricts the centroid search: it always considers the
full table.  It produces no label exactly when the whole table is empty
(`np.argmin` raises on an empty distance array — an unhandled error, not a
dedicated `NoCentroidsAvailable`); it never silently returns a default
label on an empty table.  On table `{0:[0,0], 1:[10,10]}` with vector
`[1,1]` it returns `0`; a restriction to `{1}` is not expressible. -/
theorem predict_with_fallback_searches_full_table {α : Type}
    [LinearOrderedRing α] (v : List α) (cs : List (Int × List α)) :
    (predict_with_fallback v cs = none ↔ cs = []) ∧
    predict_with_fallback ([1, 1] : List Int) [(0, [0, 0]), (1, [10, 10])]
      = some 0 := by
  refine ⟨⟨fun h => ?_, fun h => ?_⟩, by decide⟩
  · by_contra hne
    have hlt : argminIdx (cs.map (fun c => sqDist v c.2)) < cs.length := by
      have := argminIdx_lt_length (cs.map (fun c => sqDist v c.2))
        (by simpa using hne)
      simpa using this
    rw [predict_with_fallback, List.getElem?_eq_getElem hlt] at h
    simp at h
  · subst h
    rfl

end Reels
